import Mathlib

/-!
Verification of the price-tracking and extraction engine of the
xorig-backadmin repository.

The definitions below are a shallow embedding of the JavaScript source:

* parsePrice              from src/utils/scraper.js (lines 5-24)
* scrapeUrl               from src/utils/scraper.js (lines 26-131);
  network, DOM and process effects are supplied by a ScrapeEnv record and
  the browser lifecycle (launched / closed) is tracked explicitly
* processSingleLink       from the retry revision of the price-tracker job
  (src/unnamed/part_001, lines 4-76); data-store faults are supplied by a
  per-attempt fault schedule
* runPriceTracker         from src/unnamed/part_001 (lines 78-95)

JavaScript numbers are modelled as Nat (all quantities involved are
non-negative integers), throwing is modelled by explicit outcome
constructors, and the Prisma store is modelled as an explicit DB record
threaded through the functions.
-/

/-- Character class of the regex [\d,.] used by parsePrice. -/
def isPriceChar (c : Char) : Bool :=
  c.isDigit || c == ',' || c == '.'

/-- Maximal runs of price characters, as produced by matching the global
regex [\d,.]+ against the character list.  The accumulator holds the
current run in reverse. -/
def priceRuns : List Char → List Char → List (List Char)
  | [], acc => if acc = [] then [] else [acc.reverse]
  | c :: cs, acc =>
    if isPriceChar c then priceRuns cs (c :: acc)
    else if acc = [] then priceRuns cs []
    else acc.reverse :: priceRuns cs []

/-- Numeric value of a list of decimal digit characters. -/
def digitsVal (l : List Char) : Nat :=
  l.foldl (fun a c => a * 10 + (c.toNat - 48)) 0

/-- The candidate prices of a string: each regex match is stripped of
non-digits and parsed; empty cleanups (parseInt returning NaN) and
non-positive values are discarded, as in the filter of parsePrice. -/
def priceCandidates (s : String) : List Nat :=
  ((priceRuns s.data []).map (fun m => m.filter Char.isDigit)).filterMap
    (fun d => if d = [] then none
              else if digitsVal d = 0 then none
              else some (digitsVal d))

/-- parsePrice from src/utils/scraper.js: collect the [\d,.]+ matches,
clean and parse each, drop NaN and non-positive entries, and return the
minimum of what remains, or 0 when nothing remains. -/
def parsePrice (s : String) : Nat :=
  match priceCandidates s with
  | [] => 0
  | p :: ps => ps.foldl Nat.min p

/-- Boolean test that the first list starts the second one. -/
def leadsB : List Char → List Char → Bool
  | [], _ => true
  | _ :: _, [] => false
  | a :: as, b :: bs => a == b && leadsB as bs

/-- Boolean substring test on character lists. -/
def hasSubB (needle : List Char) : List Char → Bool
  | [] => leadsB needle []
  | c :: rest => leadsB needle (c :: rest) || hasSubB needle rest

/-- The JavaScript String.includes test: sub occurs inside hay. -/
def strIncl (hay sub : String) : Bool :=
  hasSubB sub.data hay.data

/-- Transient extraction result of scrapeUrl. -/
structure RawExtraction where
  vendor : String
  price : Nat
  inStock : Bool
  deriving DecidableEq

/-- Offer row of the data store. -/
structure Offer where
  id : Nat
  componentId : String
  vendorId : String
  sourceId : String
  vendor_url : String
  price : Nat
  effective_price : Nat
  in_stock : Bool
  shipping : Nat
  last_updated : Nat
  deriving DecidableEq

/-- Tracked link row of the data store (the externalId table). -/
structure Link where
  id : Nat
  componentId : String
  sourceId : String
  externalUrl : Option String
  isActive : Bool
  lastCheckedAt : Option Nat
  deriving DecidableEq

/-- The data store visible to the tracker: offer rows, link rows, and the
next fresh offer id. -/
structure DB where
  offers : List Offer
  links : List Link
  nextOfferId : Nat
  deriving DecidableEq

/-- Environment of one scrapeUrl call: which of the effectful steps fail,
and what the page contains when reached.  The two price texts are the
values returned by the page evaluation of the respective vendor strategy
(its tiered selector fallback returns the text of the first matching
selector, or the string 0 when none matches). -/
structure ScrapeEnv where
  launchFails : Bool
  newPageFails : Bool
  headersFail : Bool
  gotoFails : Bool
  title : String
  mdPriceText : String
  mdInStock : Bool
  vedPriceText : String
  vedInStock : Bool
  deriving DecidableEq

/-- Outcome of a scrapeUrl call as seen by the caller: an exception that
propagated out, or a returned value. -/
inductive ScrapeOut where
  | raised
  | value (v : Option RawExtraction)
  deriving DecidableEq

/-- Full result of a scrapeUrl call, tracking the browser lifecycle. -/
structure ScrapeRes where
  ret : ScrapeOut
  launched : Bool
  closed : Bool
  deriving DecidableEq

/-- scrapeUrl from src/utils/scraper.js.  The browser is launched after
the null-url guard; newPage and setExtraHTTPHeaders run before the try
block, so a failure there propagates without closing the browser; inside
the try block every path, including the catch, closes the browser. -/
def scrapeUrl (url : String) (env : ScrapeEnv) : ScrapeRes :=
  if url = "" then ⟨ScrapeOut.value none, false, false⟩
  else if env.launchFails then ⟨ScrapeOut.raised, false, false⟩
  else if env.newPageFails then ⟨ScrapeOut.raised, true, false⟩
  else if env.headersFail then ⟨ScrapeOut.raised, true, false⟩
  else if env.gotoFails then ⟨ScrapeOut.value none, true, true⟩
  else if strIncl env.title "404" || strIncl env.title "Not Found" then
    ⟨ScrapeOut.value none, true, true⟩
  else if strIncl url "mdcomputers.in" then
    ⟨ScrapeOut.value (some ⟨"mdcomputers", parsePrice env.mdPriceText, env.mdInStock⟩),
      true, true⟩
  else if strIncl url "vedantcomputers.com" then
    ⟨ScrapeOut.value (some ⟨"vedant", parsePrice env.vedPriceText, env.vedInStock⟩),
      true, true⟩
  else ⟨ScrapeOut.value (some ⟨"", 0, false⟩), true, true⟩

/-- Where, if anywhere, a reconciliation attempt raises a data-store
error: at the offer lookup, at the offer write, at the link-timestamp
update, or nowhere (the attempt succeeds). -/
inductive AttemptFault where
  | ok
  | onFind
  | onUpsert
  | onTouch
  deriving DecidableEq

/-- Environment of one processSingleLink call: the scrape environment,
the per-attempt data-store fault schedule, and the current clock value
used for every new Date() in the call. -/
structure LinkEnv where
  scrape : ScrapeEnv
  faults : Nat → AttemptFault
  now : Nat

/-- Result of one processSingleLink call: the value resolved to the
caller, the final data store, the number of scrapeUrl invocations, the
number of persisted offer writes, and the counts of logged data-store
and process errors. -/
structure RunResult where
  ret : Option RawExtraction
  db : DB
  fetches : Nat
  offerWrites : Nat
  dbErrLogs : Nat
  procErrLogs : Nat
  deriving DecidableEq

/-- The (componentId, vendorId) natural-key test of the findFirst call. -/
def keyB (cid v : String) (o : Offer) : Bool :=
  o.componentId == cid && o.vendorId == v

/-- Offer lookup by the (componentId, vendorId) natural key, as the
findFirst call of the job does. -/
def findOffer (db : DB) (cid v : String) : Option Offer :=
  db.offers.find? (keyB cid v)

/-- The in-place field update of the offer-update call, applied to the
row whose id matches the found offer. -/
def applyUpd (exId : Nat) (d : RawExtraction) (now : Nat) (o : Offer) : Offer :=
  if o.id == exId then
    { o with price := d.price, effective_price := d.price,
             in_stock := d.inStock, last_updated := now }
  else o

/-- The row built by the offer-create call: sourceId scraper-auto,
shipping 0, effective price equal to the raw price. -/
def newOffer (db : DB) (link : Link) (url : String) (d : RawExtraction)
    (now : Nat) : Offer :=
  ⟨db.nextOfferId, link.componentId, d.vendor, "scraper-auto", url,
    d.price, d.price, d.inStock, 0, now⟩

/-- One offer write of the job: update the found offer in place, else
create a new offer. -/
def upsertOffer (db : DB) (link : Link) (url : String) (d : RawExtraction)
    (now : Nat) : DB :=
  match findOffer db link.componentId d.vendor with
  | some ex => { db with offers := db.offers.map (applyUpd ex.id d now) }
  | none =>
    { db with
      offers := db.offers ++ [newOffer db link url d now],
      nextOfferId := db.nextOfferId + 1 }

/-- The externalId lastCheckedAt update of the job. -/
def touchLink (db : DB) (lid : Nat) (now : Nat) : DB :=
  { db with links := db.links.map (fun l =>
      if l.id == lid then { l with lastCheckedAt := some now } else l) }

/-- The while-loop of processSingleLink in src/unnamed/part_001: up to
three attempts; a fault at the lookup or at the offer write persists
nothing for that attempt, a fault at the timestamp update happens after
the offer write persisted; a clean attempt also touches the link and
breaks; exhausting the fuel falls through to the final return of data.
The counter k numbers the attempts for the fault schedule. -/
def reconcile (env : LinkEnv) (link : Link) (url : String)
    (data : RawExtraction) :
    Nat → Nat → DB → Nat → Nat → RunResult
  | 0, _, db, w, e => ⟨some data, db, 1, w, e, 0⟩
  | r + 1, k, db, w, e =>
    match env.faults k with
    | AttemptFault.ok =>
      let db1 := upsertOffer db link url data env.now
      let db2 := touchLink db1 link.id env.now
      ⟨some data, db2, 1, w + 1, e, 0⟩
    | AttemptFault.onFind => reconcile env link url data r (k + 1) db w (e + 1)
    | AttemptFault.onUpsert => reconcile env link url data r (k + 1) db w (e + 1)
    | AttemptFault.onTouch =>
      let db1 := upsertOffer db link url data env.now
      reconcile env link url data r (k + 1) db1 (w + 1) (e + 1)

/-- The vendor substrings admitted by the pre-filter of the job. -/
def validVendors : List String :=
  ["mdcomputers", "vedant", "primeabgb", "elitehubs"]

/-- processSingleLink from src/unnamed/part_001.  A null externalUrl
makes the includes call inside the try block throw, which the outer
catch converts to a logged process error and a null return; a URL
failing the pre-filter returns immediately with no fetch; a scrape
exception is absorbed by the outer catch; a null or sentinel-zero
extraction is skipped; otherwise the reconciliation loop runs. -/
def processSingleLink (link : Link) (env : LinkEnv) (db : DB) : RunResult :=
  match link.externalUrl with
  | none => ⟨none, db, 0, 0, 0, 1⟩
  | some url =>
    if validVendors.any (fun v => strIncl url v) then
      match (scrapeUrl url env.scrape).ret with
      | ScrapeOut.raised => ⟨none, db, 1, 0, 0, 1⟩
      | ScrapeOut.value none => ⟨none, db, 1, 0, 0, 0⟩
      | ScrapeOut.value (some data) =>
        if data.price = 0 then ⟨none, db, 1, 0, 0, 0⟩
        else reconcile env link url data 3 0 db 0 0
    else ⟨none, db, 0, 0, 0, 0⟩

/-- Result of one runPriceTracker call: the final store, the ids of the
links actually processed, in order, and whether the top-level catch
logged a critical failure. -/
structure BatchResult where
  db : DB
  processed : List Nat
  criticalLogged : Bool
  deriving DecidableEq

/-- Sequential processing of a list of links, threading the store and
numbering the links so each gets its own environment. -/
def runLinks (envs : Nat → LinkEnv) : List Link → Nat → DB → DB × List Nat
  | [], _, db => (db, [])
  | l :: rest, i, db =>
    let r := processSingleLink l (envs i) db
    let p := runLinks envs rest (i + 1) r.db
    (p.1, l.id :: p.2)

/-- The findMany selection of runPriceTracker: links with a non-null URL
and the active flag set. -/
def selectLinks (links : List Link) : List Link :=
  links.filter (fun l => l.externalUrl.isSome && l.isActive)

/-- runPriceTracker from src/unnamed/part_001: load the active links
(the load itself may fail, which the top-level catch logs and which ends
the batch), then process them sequentially. -/
def runPriceTracker (links : List Link) (envs : Nat → LinkEnv) (db : DB)
    (loadFails : Bool) : BatchResult :=
  if loadFails then ⟨db, [], true⟩
  else
    let p := runLinks envs (selectLinks links) 0 db
    ⟨p.1, p.2, false⟩

/-- Number of offer rows stored for one (componentId, vendorId) key. -/
def countKey (db : DB) (cid v : String) : Nat :=
  (db.offers.filter (keyB cid v)).length

/-- Boolean form of the skip conditions of processSingleLink that the
frame claim enumerates: URL failing the vendor pre-filter, scrape
returning null, or extraction carrying the sentinel price 0. -/
def skipsEarly (link : Link) (env : LinkEnv) : Bool :=
  match link.externalUrl with
  | none => false
  | some url =>
    if validVendors.any (fun v => strIncl url v) then
      match (scrapeUrl url env.scrape).ret with
      | ScrapeOut.raised => false
      | ScrapeOut.value none => true
      | ScrapeOut.value (some d) => d.price == 0
    else true

/-- Shape of every offer row written by a run: a known vendor tag,
effective price equal to raw price, and, for rows created by the tracker
(id at or above the fresh-id mark of the starting store), the scraper
source tag and zero shipping. -/
def goodNewP (next0 : Nat) (o : Offer) : Prop :=
  (o.vendorId = "mdcomputers" ∨ o.vendorId = "vedant") ∧
  o.effective_price = o.price ∧
  (next0 ≤ o.id → o.sourceId = "scraper-auto" ∧ o.shipping = 0)

instance decGoodNewP (n : Nat) (o : Offer) : Decidable (goodNewP n o) :=
  inferInstanceAs (Decidable
    ((o.vendorId = "mdcomputers" ∨ o.vendorId = "vedant") ∧
     o.effective_price = o.price ∧
     (n ≤ o.id → o.sourceId = "scraper-auto" ∧ o.shipping = 0)))

/-- Invariant relating a store reached during reconciliation to the
store db0 the run started from: the fresh-id mark never decreases, ids
stay below the mark, ids stay distinct, and every row either was already
present or has the written shape. -/
def dbInv (db0 dbc : DB) : Prop :=
  db0.nextOfferId ≤ dbc.nextOfferId ∧
  (∀ o ∈ dbc.offers, o.id < dbc.nextOfferId) ∧
  (dbc.offers.map Offer.id).Nodup ∧
  ∀ o ∈ dbc.offers, o ∈ db0.offers ∨ goodNewP db0.nextOfferId o

/-- A scrape environment in which every effectful step succeeds and the
mdcomputers price selector yields a was-now price text. -/
def sEnvOk : ScrapeEnv :=
  ⟨false, false, false, false, "RTX Product Page", "₹8,399 ₹5,300", true, "₹4,100", true⟩

/-- A scrape environment in which newPage rejects after a successful
browser launch. -/
def sEnvNewPageFail : ScrapeEnv :=
  ⟨false, true, false, false, "RTX Product Page", "₹8,399", true, "₹4,100", true⟩

/-- A tracked link pointing at a supported mdcomputers product URL. -/
def linkMd : Link :=
  ⟨1, "comp-1", "mdcomputers", some "https://mdcomputers.in/rtx-4060", true, none⟩

/-- A tracked link pointing at a primeabgb URL: admitted by the
pre-filter but matched by no extraction strategy. -/
def linkPrime : Link :=
  ⟨2, "comp-2", "primeabgb", some "https://www.primeabgb.com/rtx-4060", true, none⟩

/-- A tracked link whose URL contains none of the admitted vendor
substrings. -/
def linkOther : Link :=
  ⟨3, "comp-3", "amazon", some "https://www.amazon.in/rtx-4060", true, none⟩

/-- A store holding no offers and the two sample links. -/
def dbEmpty : DB := ⟨[], [linkMd, linkPrime], 0⟩

/-- Link environment with a clean scrape and no data-store faults. -/
def envAllOk : LinkEnv := ⟨sEnvOk, fun _ => AttemptFault.ok, 5⟩

/-- Link environment like envAllOk but at a later clock value. -/
def envLater : LinkEnv := ⟨sEnvOk, fun _ => AttemptFault.ok, 9⟩

/-- Link environment whose every reconciliation attempt fails at the
offer lookup. -/
def envAllFind : LinkEnv := ⟨sEnvOk, fun _ => AttemptFault.onFind, 5⟩

/-- Link environment whose every reconciliation attempt fails at the
link-timestamp update, after the offer write persisted. -/
def envAllTouch : LinkEnv := ⟨sEnvOk, fun _ => AttemptFault.onTouch, 5⟩

/-- Link environment failing the first two attempts at the lookup and
succeeding on the third. -/
def envFailFailOk : LinkEnv :=
  ⟨sEnvOk, fun k => if k < 2 then AttemptFault.onFind else AttemptFault.ok, 5⟩

/-! ### Helper lemmas: the minimum fold of parsePrice -/

theorem foldlMin_le_init (l : List Nat) (p : Nat) : l.foldl Nat.min p ≤ p := by
  induction l generalizing p with
  | nil => exact Nat.le_refl p
  | cons a l ih =>
    exact Nat.le_trans (ih (Nat.min p a)) (Nat.min_le_left p a)

theorem foldlMin_le_mem (l : List Nat) :
    ∀ p x : Nat, x ∈ l → l.foldl Nat.min p ≤ x := by
  induction l with
  | nil => intro p x hx; cases hx
  | cons a l ih =>
    intro p x hx
    simp only [List.foldl_cons]
    rcases List.mem_cons.mp hx with h | h
    · subst h
      exact Nat.le_trans (foldlMin_le_init l _) (Nat.min_le_right p x)
    · exact ih _ _ h

theorem foldlMin_mem (l : List Nat) :
    ∀ p : Nat, l.foldl Nat.min p = p ∨ l.foldl Nat.min p ∈ l := by
  induction l with
  | nil => intro p; left; rfl
  | cons a l ih =>
    intro p
    simp only [List.foldl_cons]
    rcases ih (Nat.min p a) with h | h
    · rw [h]
      rcases Nat.le_total p a with hle | hle
      · left
        rw [show Nat.min p a = min p a from rfl]
        exact min_eq_left hle
      · right
        have hmin : Nat.min p a = a := by
          rw [show Nat.min p a = min p a from rfl]; exact min_eq_right hle
        rw [hmin]; exact List.mem_cons_self a l
    · right; exact List.mem_cons_of_mem a h

theorem parsePrice_mem (s : String) (h : priceCandidates s ≠ []) :
    parsePrice s ∈ priceCandidates s := by
  unfold parsePrice
  cases hc : priceCandidates s with
  | nil => exact absurd hc h
  | cons p ps =>
    show ps.foldl Nat.min p ∈ p :: ps
    rcases foldlMin_mem ps p with he | he
    · rw [he]; exact List.mem_cons_self p ps
    · exact List.mem_cons_of_mem p he

theorem parsePrice_le (s : String) :
    ∀ x ∈ priceCandidates s, parsePrice s ≤ x := by
  intro x hx
  unfold parsePrice
  cases hc : priceCandidates s with
  | nil => rw [hc] at hx; cases hx
  | cons p ps =>
    rw [hc] at hx
    show ps.foldl Nat.min p ≤ x
    rcases List.mem_cons.mp hx with h | h
    · subst h; exact foldlMin_le_init ps x
    · exact foldlMin_le_mem ps p x h

/-! ### Helper lemmas: character provenance of the regex matches -/

theorem priceRuns_chars :
    ∀ (l acc m : List Char), m ∈ priceRuns l acc →
      ∀ c ∈ m, c ∈ l ∨ c ∈ acc := by
  intro l
  induction l with
  | nil =>
    intro acc m hm c hc
    simp only [priceRuns] at hm
    split at hm
    · simp at hm
    · rw [List.mem_singleton] at hm
      subst hm
      right; exact List.mem_reverse.mp hc
  | cons a l ih =>
    intro acc m hm c hc
    simp only [priceRuns] at hm
    split at hm
    · rcases ih (a :: acc) m hm c hc with h | h
      · left; exact List.mem_cons_of_mem a h
      · rcases List.mem_cons.mp h with h2 | h2
        · subst h2; left; exact List.mem_cons_self _ _
        · right; exact h2
    · split at hm
      · rcases ih [] m hm c hc with h | h
        · left; exact List.mem_cons_of_mem a h
        · cases h
      · rcases List.mem_cons.mp hm with h2 | h2
        · subst h2
          right; exact List.mem_reverse.mp hc
        · rcases ih [] m h2 c hc with h | h
          · left; exact List.mem_cons_of_mem a h
          · cases h

theorem priceCandidates_nil_of_nodigits (t : String)
    (ht : ∀ c ∈ t.data, c.isDigit = false) : priceCandidates t = [] := by
  unfold priceCandidates
  rw [List.filterMap_eq_nil_iff]
  intro d hd
  rcases List.mem_map.mp hd with ⟨m, hm, rfl⟩
  have hfilter : m.filter Char.isDigit = [] := by
    rw [List.filter_eq_nil_iff]
    intro c hc
    rcases priceRuns_chars t.data [] m hm c hc with h | h
    · simp [ht c h]
    · cases h
  rw [hfilter]
  simp

theorem parsePrice_nodigits (t : String)
    (ht : ∀ c ∈ t.data, c.isDigit = false) : parsePrice t = 0 := by
  unfold parsePrice
  rw [priceCandidates_nil_of_nodigits t ht]

/-! ### Helper lemmas: the reconciliation loop -/

theorem reconcile_ret (env : LinkEnv) (link : Link) (url : String)
    (data : RawExtraction) :
    ∀ (fuel k : Nat) (db : DB) (w e : Nat),
      (reconcile env link url data fuel k db w e).ret = some data := by
  intro fuel
  induction fuel with
  | zero => intro k db w e; rfl
  | succ r ih =>
    intro k db w e
    simp only [reconcile]
    cases env.faults k with
    | ok => rfl
    | onFind => exact ih (k + 1) db w (e + 1)
    | onUpsert => exact ih (k + 1) db w (e + 1)
    | onTouch => exact ih (k + 1) _ (w + 1) (e + 1)

theorem reconcile_fetches (env : LinkEnv) (link : Link) (url : String)
    (data : RawExtraction) :
    ∀ (fuel k : Nat) (db : DB) (w e : Nat),
      (reconcile env link url data fuel k db w e).fetches = 1 := by
  intro fuel
  induction fuel with
  | zero => intro k db w e; rfl
  | succ r ih =>
    intro k db w e
    simp only [reconcile]
    cases env.faults k with
    | ok => rfl
    | onFind => exact ih (k + 1) db w (e + 1)
    | onUpsert => exact ih (k + 1) db w (e + 1)
    | onTouch => exact ih (k + 1) _ (w + 1) (e + 1)

/-! ### Helper lemmas: the scrape strategies -/

theorem scrape_vendor (url : String) (env : ScrapeEnv) (d : RawExtraction)
    (h : (scrapeUrl url env).ret = ScrapeOut.value (some d))
    (hp : d.price ≠ 0) :
    d.vendor = "mdcomputers" ∨ d.vendor = "vedant" := by
  unfold scrapeUrl at h
  split_ifs at h <;> simp only [ScrapeOut.value.injEq, Option.some.injEq,
    reduceCtorEq] at h
  · exact Or.inl (by rw [← h])
  · exact Or.inr (by rw [← h])
  · exact absurd (by rw [← h]) hp

theorem scrape_nostrategy (url : String) (env : ScrapeEnv)
    (h1 : strIncl url "mdcomputers.in" = false)
    (h2 : strIncl url "vedantcomputers.com" = false) :
    (scrapeUrl url env).ret = ScrapeOut.raised ∨
    (scrapeUrl url env).ret = ScrapeOut.value none ∨
    (scrapeUrl url env).ret = ScrapeOut.value (some ⟨"", 0, false⟩) := by
  unfold scrapeUrl
  split_ifs with g1 g2 g3 g4 g5 g6 g7 g8
  · exact Or.inr (Or.inl rfl)
  · exact Or.inl rfl
  · exact Or.inl rfl
  · exact Or.inl rfl
  · exact Or.inr (Or.inl rfl)
  · exact Or.inr (Or.inl rfl)
  · rw [h1] at g7; cases g7
  · rw [h2] at g8; cases g8
  · exact Or.inr (Or.inr rfl)

/-! ### Helper lemmas: the offer upsert -/

theorem keyB_applyUpd (cid v : String) (exId : Nat) (d : RawExtraction)
    (now : Nat) (o : Offer) :
    keyB cid v (applyUpd exId d now o) = keyB cid v o := by
  unfold applyUpd keyB
  split <;> rfl

theorem id_applyUpd (exId : Nat) (d : RawExtraction) (now : Nat) (o : Offer) :
    (applyUpd exId d now o).id = o.id := by
  unfold applyUpd
  split <;> rfl

theorem applyUpd_self (exId : Nat) (d : RawExtraction) (now : Nat) (o : Offer)
    (h : o.id = exId) :
    applyUpd exId d now o =
      { o with price := d.price, effective_price := d.price,
               in_stock := d.inStock, last_updated := now } := by
  unfold applyUpd
  simp [h]

theorem keyB_newOffer (db : DB) (link : Link) (url : String)
    (d : RawExtraction) (now : Nat) :
    keyB link.componentId d.vendor (newOffer db link url d now) = true := by
  unfold keyB newOffer
  simp

theorem findOffer_upsert (db : DB) (link : Link) (url : String)
    (d : RawExtraction) (now : Nat) :
    findOffer (upsertOffer db link url d now) link.componentId d.vendor =
      some (match findOffer db link.componentId d.vendor with
            | some ex => applyUpd ex.id d now ex
            | none => newOffer db link url d now) := by
  unfold upsertOffer
  cases hf : findOffer db link.componentId d.vendor with
  | none =>
    show (db.offers ++ [newOffer db link url d now]).find? _ = _
    rw [List.find?_append]
    unfold findOffer at hf
    rw [hf]
    simp [List.find?_cons, keyB_newOffer]
  | some ex =>
    show (db.offers.map (applyUpd ex.id d now)).find? _ = _
    rw [List.find?_map]
    have hcomp : (keyB link.componentId d.vendor ∘ applyUpd ex.id d now) =
        keyB link.componentId d.vendor :=
      funext fun o => keyB_applyUpd _ _ _ _ _ o
    rw [hcomp]
    unfold findOffer at hf
    rw [hf]
    rfl

theorem countKey_upsert (db : DB) (link : Link) (url : String)
    (d : RawExtraction) (now : Nat) :
    countKey (upsertOffer db link url d now) link.componentId d.vendor =
      (match findOffer db link.componentId d.vendor with
       | some _ => countKey db link.componentId d.vendor
       | none => countKey db link.componentId d.vendor + 1) := by
  unfold upsertOffer
  cases hf : findOffer db link.componentId d.vendor with
  | none =>
    show ((db.offers ++ [newOffer db link url d now]).filter _).length = _
    rw [List.filter_append]
    have : [newOffer db link url d now].filter (keyB link.componentId d.vendor)
        = [newOffer db link url d now] := by
      simp [List.filter, keyB_newOffer]
    rw [this, List.length_append]
    rfl
  | some ex =>
    show ((db.offers.map (applyUpd ex.id d now)).filter _).length = _
    rw [List.filter_map]
    have hcomp : (keyB link.componentId d.vendor ∘ applyUpd ex.id d now) =
        keyB link.componentId d.vendor :=
      funext fun o => keyB_applyUpd _ _ _ _ _ o
    rw [hcomp, List.length_map]
    rfl

theorem countKey_pos_of_find (db : DB) (cid v : String) (ex : Offer)
    (hf : findOffer db cid v = some ex) : 1 ≤ countKey db cid v := by
  unfold findOffer at hf
  unfold countKey
  have hmem := List.mem_of_find?_eq_some hf
  have hp := List.find?_some hf
  exact List.length_pos_of_mem (List.mem_filter.mpr ⟨hmem, hp⟩)

theorem countKey_zero_of_find_none (db : DB) (cid v : String)
    (hf : findOffer db cid v = none) : countKey db cid v = 0 := by
  unfold findOffer at hf
  unfold countKey
  have : db.offers.filter (keyB cid v) = [] := by
    rw [List.filter_eq_nil_iff]
    intro o ho
    have := List.find?_eq_none.mp hf o ho
    simpa using this
  rw [this]
  rfl

theorem findOffer_touch (db : DB) (lid now : Nat) (cid v : String) :
    findOffer (touchLink db lid now) cid v = findOffer db cid v := rfl

theorem countKey_touch (db : DB) (lid now : Nat) (cid v : String) :
    countKey (touchLink db lid now) cid v = countKey db cid v := rfl

/-! ### Helper lemmas: the store invariant carried through reconciliation -/

theorem idInj (l : List Offer) (hnd : (l.map Offer.id).Nodup) :
    ∀ o1 ∈ l, ∀ o2 ∈ l, o1.id = o2.id → o1 = o2 := by
  induction l with
  | nil => intro o1 h1; cases h1
  | cons a l ih =>
    intro o1 h1 o2 h2 he
    rw [List.map_cons] at hnd
    rcases List.nodup_cons.mp hnd with ⟨hna, hndl⟩
    rcases List.mem_cons.mp h1 with h1' | h1' <;>
      rcases List.mem_cons.mp h2 with h2' | h2'
    · rw [h1', h2']
    · subst h1'
      exact absurd (List.mem_map.mpr ⟨o2, h2', he.symm⟩) hna
    · subst h2'
      exact absurd (List.mem_map.mpr ⟨o1, h1', he⟩) hna
    · exact ih hndl o1 h1' o2 h2' he

theorem upsert_dbInv (db0 dbc : DB) (link : Link) (url : String)
    (d : RawExtraction) (now : Nat)
    (h0 : ∀ o ∈ db0.offers, o.id < db0.nextOfferId)
    (hv : d.vendor = "mdcomputers" ∨ d.vendor = "vedant")
    (hI : dbInv db0 dbc) :
    dbInv db0 (upsertOffer dbc link url d now) := by
  obtain ⟨hle, hbnd, hnd, hmem⟩ := hI
  unfold upsertOffer
  cases hf : findOffer dbc link.componentId d.vendor with
  | none =>
    refine ⟨Nat.le_trans hle (Nat.le_succ _), ?_, ?_, ?_⟩
    · intro o ho
      rcases List.mem_append.mp ho with h | h
      · exact Nat.lt_trans (hbnd o h) (Nat.lt_succ_self _)
      · rw [List.mem_singleton] at h
        subst h
        exact Nat.lt_succ_self _
    · show (((dbc.offers ++ [newOffer dbc link url d now]).map Offer.id)).Nodup
      rw [List.map_append]
      refine List.Nodup.append hnd (List.nodup_singleton _) ?_
      intro a ha hb
      simp only [List.map_cons, List.map_nil, List.mem_singleton] at hb
      rcases List.mem_map.mp ha with ⟨o, ho, hid⟩
      have hlt := hbnd o ho
      have : a = dbc.nextOfferId := hb
      omega
    · intro o ho
      rcases List.mem_append.mp ho with h | h
      · exact hmem o h
      · rw [List.mem_singleton] at h
        subst h
        right
        refine ⟨hv, rfl, fun _ => ⟨rfl, rfl⟩⟩
  | some ex =>
    have hexmem : ex ∈ dbc.offers := List.mem_of_find?_eq_some hf
    have hexp : keyB link.componentId d.vendor ex = true := List.find?_some hf
    have hexv : ex.vendorId = d.vendor := by
      unfold keyB at hexp
      simp only [Bool.and_eq_true, beq_iff_eq] at hexp
      exact hexp.2
    refine ⟨hle, ?_, ?_, ?_⟩
    · intro o ho
      rcases List.mem_map.mp ho with ⟨o0, ho0, rfl⟩
      rw [id_applyUpd]
      exact hbnd o0 ho0
    · show ((dbc.offers.map (applyUpd ex.id d now)).map Offer.id).Nodup
      rw [List.map_map]
      have heq : dbc.offers.map (Offer.id ∘ applyUpd ex.id d now) =
          dbc.offers.map Offer.id :=
        List.map_congr_left (fun o _ => id_applyUpd ex.id d now o)
      rw [heq]
      exact hnd
    · intro o ho
      rcases List.mem_map.mp ho with ⟨o0, ho0, rfl⟩
      cases hb : o0.id == ex.id with
      | false =>
        have : applyUpd ex.id d now o0 = o0 := by
          unfold applyUpd; rw [hb]; rfl
        rw [this]
        exact hmem o0 ho0
      | true =>
        have hide : o0.id = ex.id := eq_of_beq hb
        have ho0ex : o0 = ex := idInj dbc.offers hnd o0 ho0 ex hexmem hide
        subst ho0ex
        rw [applyUpd_self _ _ _ _ hide]
        right
        refine ⟨Or.imp (fun h => by rw [hexv]; exact h)
          (fun h => by rw [hexv]; exact h) hv, rfl, ?_⟩
      -- the creation clause: an updated row keeps its source and shipping
        intro hge
        rcases hmem o0 ho0 with hin | hgood
        · exact absurd (h0 o0 hin) (Nat.not_lt.mpr hge)
        · exact hgood.2.2 hge

theorem touch_dbInv (db0 dbc : DB) (lid now : Nat)
    (hI : dbInv db0 dbc) : dbInv db0 (touchLink dbc lid now) := hI

theorem reconcile_dbInv (env : LinkEnv) (link : Link) (url : String)
    (d : RawExtraction)
    (db0 : DB)
    (h0 : ∀ o ∈ db0.offers, o.id < db0.nextOfferId)
    (hv : d.vendor = "mdcomputers" ∨ d.vendor = "vedant") :
    ∀ (fuel k : Nat) (dbc : DB) (w e : Nat), dbInv db0 dbc →
      dbInv db0 (reconcile env link url d fuel k dbc w e).db := by
  intro fuel
  induction fuel with
  | zero => intro k dbc w e h; exact h
  | succ r ih =>
    intro k dbc w e h
    simp only [reconcile]
    cases env.faults k with
    | ok =>
      exact touch_dbInv _ _ _ _ (upsert_dbInv db0 dbc link url d env.now h0 hv h)
    | onFind => exact ih (k + 1) dbc w (e + 1) h
    | onUpsert => exact ih (k + 1) dbc w (e + 1) h
    | onTouch =>
      exact ih (k + 1) _ (w + 1) (e + 1)
        (upsert_dbInv db0 dbc link url d env.now h0 hv h)

/-! ### Helper lemmas: the batch runner -/

theorem runLinks_processed (envs : Nat → LinkEnv) :
    ∀ (l : List Link) (i : Nat) (db : DB),
      (runLinks envs l i db).2 = l.map Link.id := by
  intro l
  induction l with
  | nil => intro i db; rfl
  | cons a l ih =>
    intro i db
    simp only [runLinks, List.map_cons]
    rw [ih]

/-! ### Helper lemmas: unfolding processSingleLink by case -/

theorem psl_none (link : Link) (env : LinkEnv) (db : DB)
    (hu : link.externalUrl = none) :
    processSingleLink link env db = ⟨none, db, 0, 0, 0, 1⟩ := by
  unfold processSingleLink
  rw [hu]

theorem psl_some (link : Link) (env : LinkEnv) (db : DB) (url : String)
    (hu : link.externalUrl = some url) :
    processSingleLink link env db =
      (if validVendors.any (fun v => strIncl url v) then
        match (scrapeUrl url env.scrape).ret with
        | ScrapeOut.raised => ⟨none, db, 1, 0, 0, 1⟩
        | ScrapeOut.value none => ⟨none, db, 1, 0, 0, 0⟩
        | ScrapeOut.value (some data) =>
          if data.price = 0 then ⟨none, db, 1, 0, 0, 0⟩
          else reconcile env link url data 3 0 db 0 0
      else ⟨none, db, 0, 0, 0, 0⟩) := by
  unfold processSingleLink
  rw [hu]

theorem skipsEarly_none (link : Link) (env : LinkEnv)
    (hu : link.externalUrl = none) : skipsEarly link env = false := by
  unfold skipsEarly
  rw [hu]

theorem skipsEarly_some (link : Link) (env : LinkEnv) (url : String)
    (hu : link.externalUrl = some url) :
    skipsEarly link env =
      (if validVendors.any (fun v => strIncl url v) then
        match (scrapeUrl url env.scrape).ret with
        | ScrapeOut.raised => false
        | ScrapeOut.value none => true
        | ScrapeOut.value (some d) => d.price == 0
      else true) := by
  unfold skipsEarly
  rw [hu]

theorem psl_reconcile (link : Link) (env : LinkEnv) (db : DB) (url : String)
    (data : RawExtraction)
    (hu : link.externalUrl = some url)
    (hpre : validVendors.any (fun v => strIncl url v) = true)
    (hscr : (scrapeUrl url env.scrape).ret = ScrapeOut.value (some data))
    (hp : data.price ≠ 0) :
    processSingleLink link env db = reconcile env link url data 3 0 db 0 0 := by
  rw [psl_some link env db url hu, if_pos hpre, hscr]
  show (if data.price = 0 then (⟨none, db, 1, 0, 0, 0⟩ : RunResult)
        else reconcile env link url data 3 0 db 0 0) =
    reconcile env link url data 3 0 db 0 0
  exact if_neg hp

theorem psl_ok_db (link : Link) (env : LinkEnv) (db : DB) (url : String)
    (d : RawExtraction)
    (hu : link.externalUrl = some url)
    (hpre : validVendors.any (fun v => strIncl url v) = true)
    (hscr : (scrapeUrl url env.scrape).ret = ScrapeOut.value (some d))
    (hp : d.price ≠ 0)
    (hf : env.faults 0 = AttemptFault.ok) :
    (processSingleLink link env db).db =
      touchLink (upsertOffer db link url d env.now) link.id env.now := by
  rw [psl_reconcile link env db url d hu hpre hscr hp]
  simp only [reconcile, hf]

/-! ### Helper lemmas: specialized upsert corollaries -/

theorem findOffer_upsert_found (db : DB) (link : Link) (url : String)
    (d : RawExtraction) (now : Nat) (ex : Offer)
    (hf : findOffer db link.componentId d.vendor = some ex) :
    findOffer (upsertOffer db link url d now) link.componentId d.vendor =
      some (applyUpd ex.id d now ex) := by
  rw [findOffer_upsert db link url d now, hf]

theorem findOffer_upsert_new (db : DB) (link : Link) (url : String)
    (d : RawExtraction) (now : Nat)
    (hf : findOffer db link.componentId d.vendor = none) :
    findOffer (upsertOffer db link url d now) link.componentId d.vendor =
      some (newOffer db link url d now) := by
  rw [findOffer_upsert db link url d now, hf]

theorem countKey_upsert_found (db : DB) (link : Link) (url : String)
    (d : RawExtraction) (now : Nat) (ex : Offer)
    (hf : findOffer db link.componentId d.vendor = some ex) :
    countKey (upsertOffer db link url d now) link.componentId d.vendor =
      countKey db link.componentId d.vendor := by
  rw [countKey_upsert db link url d now, hf]

theorem countKey_upsert_new (db : DB) (link : Link) (url : String)
    (d : RawExtraction) (now : Nat)
    (hf : findOffer db link.componentId d.vendor = none) :
    countKey (upsertOffer db link url d now) link.componentId d.vendor =
      countKey db link.componentId d.vendor + 1 := by
  rw [countKey_upsert db link url d now, hf]

theorem applyUpd_price (d : RawExtraction) (now : Nat) (o : Offer) :
    (applyUpd o.id d now o).price = d.price := by
  unfold applyUpd
  simp

theorem applyUpd_updated (d : RawExtraction) (now : Nat) (o : Offer) :
    (applyUpd o.id d now o).last_updated = now := by
  unfold applyUpd
  simp

/-! ### Claim theorems -/

/-- C2: for a price text whose cleaned numeric substrings leave at least
two positive candidates, parsePrice returns their minimum (it is one of
the candidates and is at most every candidate); for a text with no
digits it returns 0; and the three cited examples evaluate as stated. -/
theorem C2_parsePrice_min (s t : String)
    (h2 : 2 ≤ (priceCandidates s).length)
    (ht : ∀ c ∈ t.data, c.isDigit = false) :
    decide (parsePrice s ∈ priceCandidates s) = true ∧
    (priceCandidates s).all (fun x => decide (parsePrice s ≤ x)) = true ∧
    parsePrice t = 0 ∧
    parsePrice "₹8,399 ₹5,300" = 5300 ∧
    parsePrice "Call for price" = 0 ∧
    parsePrice "1,000" = 1000 := by
  refine ⟨?_, ?_, parsePrice_nodigits t ht, by decide, by decide, by decide⟩
  · rw [decide_eq_true_eq]
    apply parsePrice_mem
    intro hnil
    rw [hnil] at h2
    simp at h2
  · rw [List.all_eq_true]
    intro x hx
    rw [decide_eq_true_eq]
    exact parsePrice_le s x hx

/-- Witness for C2 at the cited example inputs. -/
theorem C2_parsePrice_min_witness :
    decide (parsePrice "₹8,399 ₹5,300" ∈ priceCandidates "₹8,399 ₹5,300") = true ∧
    (priceCandidates "₹8,399 ₹5,300").all
      (fun x => decide (parsePrice "₹8,399 ₹5,300" ≤ x)) = true ∧
    parsePrice "Call for price" = 0 ∧
    parsePrice "₹8,399 ₹5,300" = 5300 ∧
    parsePrice "Call for price" = 0 ∧
    parsePrice "1,000" = 1000 :=
  C2_parsePrice_min "₹8,399 ₹5,300" "Call for price" (by decide) (by decide)

/-- C8: parsePrice is total on strings: it returns a natural number for
every input, including the empty string and text with currency symbols
and separators. -/
theorem C8_parsePrice_total :
    parsePrice "" = 0 ∧ parsePrice "1,000" = 1000 ∧ parsePrice "₹" = 0 ∧
    ∀ s : String, ∃ n : Nat, parsePrice s = n :=
  ⟨by decide, by decide, by decide, fun s => ⟨parsePrice s, rfl⟩⟩

/-- C3: when processing skips before reconciliation (pre-filter reject,
null fetch result, or sentinel price 0), the store is untouched: no
offer write happens, and the link rows, hence the last-checked
timestamp, stay exactly as they were. -/
theorem C3_skip_no_write (link : Link) (env : LinkEnv) (db : DB)
    (h : skipsEarly link env = true) :
    (processSingleLink link env db).db = db ∧
    (processSingleLink link env db).offerWrites = 0 := by
  cases hu : link.externalUrl with
  | none => rw [skipsEarly_none link env hu] at h; cases h
  | some url =>
    rw [skipsEarly_some link env url hu] at h
    rw [psl_some link env db url hu]
    by_cases hb : validVendors.any (fun v => strIncl url v) = true
    · rw [if_pos hb] at h ⊢
      cases hr : (scrapeUrl url env.scrape).ret with
      | raised => rw [hr] at h; cases h
      | value v =>
        cases v with
        | none => exact ⟨rfl, rfl⟩
        | some d =>
          rw [hr] at h
          have hd : d.price = 0 := by simpa using h
          constructor
          · show (if d.price = 0 then (⟨none, db, 1, 0, 0, 0⟩ : RunResult)
                  else reconcile env link url d 3 0 db 0 0).db = db
            rw [if_pos hd]
          · show (if d.price = 0 then (⟨none, db, 1, 0, 0, 0⟩ : RunResult)
                  else reconcile env link url d 3 0 db 0 0).offerWrites = 0
            rw [if_pos hd]
    · rw [if_neg hb]
      exact ⟨rfl, rfl⟩

/-- Witness for C3: a primeabgb link is fetched, yields the sentinel
extraction, and leaves the store untouched. -/
theorem C3_skip_no_write_witness :
    (processSingleLink linkPrime envAllOk dbEmpty).db = dbEmpty ∧
    (processSingleLink linkPrime envAllOk dbEmpty).offerWrites = 0 :=
  C3_skip_no_write linkPrime envAllOk dbEmpty (by decide)

/-- C4 counterexample: this primeabgb URL matches neither extraction
strategy, yet processing it performs one fetch, so the claim that a
link matching no strategy gets zero fetch attempts is false. -/
theorem C4_counterexample :
    strIncl "https://www.primeabgb.com/rtx-4060" "mdcomputers.in" = false ∧
    strIncl "https://www.primeabgb.com/rtx-4060" "vedantcomputers.com" = false ∧
    (processSingleLink linkPrime envAllOk dbEmpty).fetches = 1 := by
  decide

/-- C4 amended: a link whose URL contains none of the four admitted
vendor substrings returns immediately with zero fetch attempts and no
store change; links passing the pre-filter but matching no strategy are
fetched once and then skipped. -/
theorem C4_amended (link : Link) (env : LinkEnv) (db : DB) (url : String)
    (hu : link.externalUrl = some url)
    (hpre : validVendors.any (fun v => strIncl url v) = false) :
    processSingleLink link env db = ⟨none, db, 0, 0, 0, 0⟩ := by
  rw [psl_some link env db url hu]
  simp [hpre]

/-- Witness for the amended C4 at an amazon URL. -/
theorem C4_amended_witness :
    processSingleLink linkOther envAllOk dbEmpty = ⟨none, dbEmpty, 0, 0, 0, 0⟩ :=
  C4_amended linkOther envAllOk dbEmpty "https://www.amazon.in/rtx-4060" rfl
    (by decide)

/-- C6 counterexample: with every reconciliation attempt failing, the
three store errors are logged and the store is untouched, but the call
resolves to the extracted data, not to null as claimed. -/
theorem C6_counterexample :
    (processSingleLink linkMd envAllFind dbEmpty).dbErrLogs = 3 ∧
    (processSingleLink linkMd envAllFind dbEmpty).db = dbEmpty ∧
    (processSingleLink linkMd envAllFind dbEmpty).ret =
      some ⟨"mdcomputers", 5300, true⟩ ∧
    (processSingleLink linkMd envAllFind dbEmpty).ret ≠ none := by
  decide

/-- C6 amended: the single-link run never rejects, and its resolved
value is null exactly on the unsupported-vendor, fetch-failure and
sentinel-price paths; once a non-zero price is extracted the call
resolves to the extraction data even when every reconciliation attempt
fails. -/
theorem C6_amended (link : Link) (env : LinkEnv) (db : DB) :
    (processSingleLink link env db).ret =
      (match link.externalUrl with
       | none => none
       | some url =>
         if validVendors.any (fun v => strIncl url v) then
           match (scrapeUrl url env.scrape).ret with
           | ScrapeOut.raised => none
           | ScrapeOut.value none => none
           | ScrapeOut.value (some d) =>
             if d.price = 0 then none else some d
         else none) := by
  cases hu : link.externalUrl with
  | none => rw [psl_none link env db hu]
  | some url =>
    rw [psl_some link env db url hu]
    show _ = (if validVendors.any (fun v => strIncl url v) then
        match (scrapeUrl url env.scrape).ret with
        | ScrapeOut.raised => none
        | ScrapeOut.value none => none
        | ScrapeOut.value (some d) => if d.price = 0 then none else some d
      else none)
    by_cases hb : validVendors.any (fun v => strIncl url v) = true
    · rw [if_pos hb, if_pos hb]
      cases hr : (scrapeUrl url env.scrape).ret with
      | raised => rfl
      | value v =>
        cases v with
        | none => rfl
        | some d =>
          show (if d.price = 0 then (⟨none, db, 1, 0, 0, 0⟩ : RunResult)
                else reconcile env link url d 3 0 db 0 0).ret =
            (if d.price = 0 then none else some d)
          by_cases hd : d.price = 0
          · rw [if_pos hd, if_pos hd]
          · rw [if_neg hd, if_neg hd]
            exact reconcile_ret env link url d 3 0 db 0 0
    · rw [if_neg hb, if_neg hb]

/-- C9: evaluation of the browser lifecycle of scrapeUrl.  On the
in-try exception, 404 and success paths the launched browser is closed
before returning, but when newPage rejects right after a successful
launch the exception propagates with the browser still open, violating
the mandated guaranteed release. -/
theorem C9_browser_release :
    (scrapeUrl "https://mdcomputers.in/rtx-4060" sEnvNewPageFail).launched = true ∧
    (scrapeUrl "https://mdcomputers.in/rtx-4060" sEnvNewPageFail).closed = false ∧
    (scrapeUrl "https://mdcomputers.in/rtx-4060" sEnvNewPageFail).ret =
      ScrapeOut.raised ∧
    (scrapeUrl "https://mdcomputers.in/rtx-4060" sEnvOk).closed = true ∧
    (scrapeUrl "https://mdcomputers.in/rtx-4060"
      ⟨false, false, false, true, "x", "0", false, "0", false⟩).closed = true ∧
    (scrapeUrl "https://mdcomputers.in/rtx-4060"
      ⟨false, false, false, false, "404 Not Found", "0", false, "0",
        false⟩).closed = true := by
  decide

/-- C1: for a link whose extraction produced a non-zero price, when the
offer write fails on the first two reconciliation attempts (at or before
the write, so nothing of those attempts persists) and the third attempt
succeeds, the call resolves to the data with no error, the store ends
with exactly one persisted offer write plus the refreshed link
timestamp, and that write is an in-place update when an offer for the
(componentId, vendor) key existed, else a create. -/
theorem C1_retry_then_success (link : Link) (env : LinkEnv) (db : DB)
    (url : String) (data : RawExtraction)
    (hu : link.externalUrl = some url)
    (hpre : validVendors.any (fun v => strIncl url v) = true)
    (hscr : (scrapeUrl url env.scrape).ret = ScrapeOut.value (some data))
    (hp : data.price ≠ 0)
    (h0 : env.faults 0 = AttemptFault.onFind ∨ env.faults 0 = AttemptFault.onUpsert)
    (h1 : env.faults 1 = AttemptFault.onFind ∨ env.faults 1 = AttemptFault.onUpsert)
    (h2 : env.faults 2 = AttemptFault.ok) :
    processSingleLink link env db =
      ⟨some data, touchLink (upsertOffer db link url data env.now) link.id env.now,
        1, 1, 2, 0⟩ ∧
    (upsertOffer db link url data env.now).offers.length =
      (if (findOffer db link.componentId data.vendor).isSome
       then db.offers.length else db.offers.length + 1) := by
  constructor
  · rw [psl_reconcile link env db url data hu hpre hscr hp]
    rcases h0 with h0 | h0 <;> rcases h1 with h1 | h1 <;>
      simp only [reconcile, h0, h1, h2]
  · unfold upsertOffer
    cases hf : findOffer db link.componentId data.vendor with
    | some ex =>
      show (db.offers.map (applyUpd ex.id data env.now)).length = _
      rw [List.length_map]
      rfl
    | none =>
      show (db.offers ++ [newOffer db link url data env.now]).length = _
      rw [List.length_append]
      rfl

/-- Witness for C1: two lookup failures then a clean third attempt on an
mdcomputers link over the empty store. -/
theorem C1_retry_then_success_witness :
    processSingleLink linkMd envFailFailOk dbEmpty =
      ⟨some ⟨"mdcomputers", 5300, true⟩,
        touchLink (upsertOffer dbEmpty linkMd "https://mdcomputers.in/rtx-4060"
          ⟨"mdcomputers", 5300, true⟩ 5) linkMd.id 5, 1, 1, 2, 0⟩ ∧
    (upsertOffer dbEmpty linkMd "https://mdcomputers.in/rtx-4060"
      ⟨"mdcomputers", 5300, true⟩ 5).offers.length =
      (if (findOffer dbEmpty linkMd.componentId
            (RawExtraction.mk "mdcomputers" 5300 true).vendor).isSome
       then dbEmpty.offers.length else dbEmpty.offers.length + 1) :=
  C1_retry_then_success linkMd envFailFailOk dbEmpty
    "https://mdcomputers.in/rtx-4060" ⟨"mdcomputers", 5300, true⟩ rfl
    (by decide) (by decide) (by decide) (Or.inl rfl) (Or.inl rfl) rfl

/-- C5 counterexample: a schedule in which every attempt fails at the
link-timestamp update has all three attempts fail with a store error,
yet offer writes persist, so the claim that three failed attempts leave
the offer store unchanged is false. -/
theorem C5_counterexample :
    (processSingleLink linkMd envAllTouch dbEmpty).dbErrLogs = 3 ∧
    (processSingleLink linkMd envAllTouch dbEmpty).offerWrites = 3 ∧
    (processSingleLink linkMd envAllTouch dbEmpty).db.offers ≠ dbEmpty.offers := by
  decide

/-- C5 amended: when all three reconciliation attempts fail at or before
the offer write, no store change persists, three store failures are
logged and nothing is raised (the call resolves to the data); an attempt
failing after the offer write leaves that write persisted.  The batch
loop always processes every selected link, so such a failure never
aborts the remainder of the batch. -/
theorem C5_amended (link : Link) (env : LinkEnv) (db : DB) (url : String)
    (data : RawExtraction) (links : List Link) (envs : Nat → LinkEnv) (db2 : DB)
    (hu : link.externalUrl = some url)
    (hpre : validVendors.any (fun v => strIncl url v) = true)
    (hscr : (scrapeUrl url env.scrape).ret = ScrapeOut.value (some data))
    (hp : data.price ≠ 0)
    (h0 : env.faults 0 = AttemptFault.onFind ∨ env.faults 0 = AttemptFault.onUpsert)
    (h1 : env.faults 1 = AttemptFault.onFind ∨ env.faults 1 = AttemptFault.onUpsert)
    (h2 : env.faults 2 = AttemptFault.onFind ∨ env.faults 2 = AttemptFault.onUpsert) :
    processSingleLink link env db = ⟨some data, db, 1, 0, 3, 0⟩ ∧
    (runPriceTracker links envs db2 false).processed =
      (selectLinks links).map Link.id ∧
    (runPriceTracker links envs db2 false).criticalLogged = false := by
  refine ⟨?_, ?_, rfl⟩
  · rw [psl_reconcile link env db url data hu hpre hscr hp]
    rcases h0 with h0 | h0 <;> rcases h1 with h1 | h1 <;>
      rcases h2 with h2 | h2 <;> simp only [reconcile, h0, h1, h2]
  · exact runLinks_processed envs (selectLinks links) 0 db2

/-- Witness for the amended C5: three lookup failures on an mdcomputers
link, and a two-link batch that still processes both links. -/
theorem C5_amended_witness :
    processSingleLink linkMd envAllFind dbEmpty =
      ⟨some ⟨"mdcomputers", 5300, true⟩, dbEmpty, 1, 0, 3, 0⟩ ∧
    (runPriceTracker [linkMd, linkPrime] (fun _ => envAllOk) dbEmpty
      false).processed = (selectLinks [linkMd, linkPrime]).map Link.id ∧
    (runPriceTracker [linkMd, linkPrime] (fun _ => envAllOk) dbEmpty
      false).criticalLogged = false :=
  C5_amended linkMd envAllFind dbEmpty "https://mdcomputers.in/rtx-4060"
    ⟨"mdcomputers", 5300, true⟩ [linkMd, linkPrime] (fun _ => envAllOk) dbEmpty
    rfl (by decide) (by decide) (by decide)
    (Or.inl rfl) (Or.inl rfl) (Or.inl rfl)

/-- C7: two fault-free runs on the same link with the same non-zero
extracted price leave exactly one offer row for the (componentId,
vendor) key, provided the store starts with at most one row for that
key; the first run writes price and timestamp, the second updates the
same row in place (same row id), with the price unchanged and the
last-updated timestamp advanced to each run's clock. -/
theorem C7_idempotent_upsert (link : Link) (env1 env2 : LinkEnv) (db : DB)
    (url : String) (d : RawExtraction)
    (hu : link.externalUrl = some url)
    (hpre : validVendors.any (fun v => strIncl url v) = true)
    (hs1 : (scrapeUrl url env1.scrape).ret = ScrapeOut.value (some d))
    (hs2 : (scrapeUrl url env2.scrape).ret = ScrapeOut.value (some d))
    (hp : d.price ≠ 0)
    (hf1 : env1.faults 0 = AttemptFault.ok)
    (hf2 : env2.faults 0 = AttemptFault.ok)
    (ht : env1.now < env2.now)
    (hkey : countKey db link.componentId d.vendor ≤ 1) :
    countKey (processSingleLink link env1 db).db link.componentId d.vendor = 1 ∧
    countKey (processSingleLink link env2
      (processSingleLink link env1 db).db).db link.componentId d.vendor = 1 ∧
    (findOffer (processSingleLink link env1 db).db link.componentId
      d.vendor).map Offer.price = some d.price ∧
    (findOffer (processSingleLink link env1 db).db link.componentId
      d.vendor).map Offer.last_updated = some env1.now ∧
    (findOffer (processSingleLink link env2
      (processSingleLink link env1 db).db).db link.componentId
      d.vendor).map Offer.price = some d.price ∧
    (findOffer (processSingleLink link env2
      (processSingleLink link env1 db).db).db link.componentId
      d.vendor).map Offer.last_updated = some env2.now ∧
    (findOffer (processSingleLink link env2
      (processSingleLink link env1 db).db).db link.componentId
      d.vendor).map Offer.id =
      (findOffer (processSingleLink link env1 db).db link.componentId
        d.vendor).map Offer.id ∧
    env1.now < env2.now := by
  have e1 := psl_ok_db link env1 db url d hu hpre hs1 hp hf1
  have e2 := psl_ok_db link env2 (processSingleLink link env1 db).db url d
    hu hpre hs2 hp hf2
  rw [e1] at e2
  rw [e1, e2]
  simp only [countKey_touch, findOffer_touch]
  cases hfdb : findOffer db link.componentId d.vendor with
  | some ex =>
    have hc1 : countKey (upsertOffer db link url d env1.now)
        link.componentId d.vendor = 1 := by
      rw [countKey_upsert_found db link url d env1.now ex hfdb]
      exact Nat.le_antisymm hkey (countKey_pos_of_find db _ _ ex hfdb)
    have hm1 : findOffer (upsertOffer db link url d env1.now)
        link.componentId d.vendor = some (applyUpd ex.id d env1.now ex) :=
      findOffer_upsert_found db link url d env1.now ex hfdb
    have hm1T : findOffer (touchLink (upsertOffer db link url d env1.now)
        link.id env1.now) link.componentId d.vendor =
        some (applyUpd ex.id d env1.now ex) := by
      rw [findOffer_touch]
      exact hm1
    have hm2 : findOffer (upsertOffer (touchLink (upsertOffer db link url d
          env1.now) link.id env1.now) link url d env2.now)
        link.componentId d.vendor =
        some (applyUpd (applyUpd ex.id d env1.now ex).id d env2.now
          (applyUpd ex.id d env1.now ex)) :=
      findOffer_upsert_found _ link url d env2.now _ hm1T
    have hc2 : countKey (upsertOffer (touchLink (upsertOffer db link url d
          env1.now) link.id env1.now) link url d env2.now)
        link.componentId d.vendor = 1 := by
      rw [countKey_upsert_found _ link url d env2.now _ hm1T, countKey_touch]
      exact hc1
    refine ⟨hc1, hc2, ?_, ?_, ?_, ?_, ?_, ht⟩
    · rw [hm1]
      show some (applyUpd ex.id d env1.now ex).price = some d.price
      rw [applyUpd_price]
    · rw [hm1]
      show some (applyUpd ex.id d env1.now ex).last_updated = some env1.now
      rw [applyUpd_updated]
    · rw [hm2]
      show some (applyUpd (applyUpd ex.id d env1.now ex).id d env2.now
        (applyUpd ex.id d env1.now ex)).price = some d.price
      rw [applyUpd_price]
    · rw [hm2]
      show some (applyUpd (applyUpd ex.id d env1.now ex).id d env2.now
        (applyUpd ex.id d env1.now ex)).last_updated = some env2.now
      rw [applyUpd_updated]
    · rw [hm2, hm1]
      show some (applyUpd (applyUpd ex.id d env1.now ex).id d env2.now
        (applyUpd ex.id d env1.now ex)).id =
        some (applyUpd ex.id d env1.now ex).id
      rw [id_applyUpd]
  | none =>
    have hc1 : countKey (upsertOffer db link url d env1.now)
        link.componentId d.vendor = 1 := by
      rw [countKey_upsert_new db link url d env1.now hfdb,
        countKey_zero_of_find_none db _ _ hfdb]
    have hm1 : findOffer (upsertOffer db link url d env1.now)
        link.componentId d.vendor = some (newOffer db link url d env1.now) :=
      findOffer_upsert_new db link url d env1.now hfdb
    have hm1T : findOffer (touchLink (upsertOffer db link url d env1.now)
        link.id env1.now) link.componentId d.vendor =
        some (newOffer db link url d env1.now) := by
      rw [findOffer_touch]
      exact hm1
    have hm2 : findOffer (upsertOffer (touchLink (upsertOffer db link url d
          env1.now) link.id env1.now) link url d env2.now)
        link.componentId d.vendor =
        some (applyUpd (newOffer db link url d env1.now).id d env2.now
          (newOffer db link url d env1.now)) :=
      findOffer_upsert_found _ link url d env2.now _ hm1T
    have hc2 : countKey (upsertOffer (touchLink (upsertOffer db link url d
          env1.now) link.id env1.now) link url d env2.now)
        link.componentId d.vendor = 1 := by
      rw [countKey_upsert_found _ link url d env2.now _ hm1T, countKey_touch]
      exact hc1
    refine ⟨hc1, hc2, ?_, ?_, ?_, ?_, ?_, ht⟩
    · rw [hm1]
      rfl
    · rw [hm1]
      rfl
    · rw [hm2]
      show some (applyUpd (newOffer db link url d env1.now).id d env2.now
        (newOffer db link url d env1.now)).price = some d.price
      rw [applyUpd_price]
    · rw [hm2]
      show some (applyUpd (newOffer db link url d env1.now).id d env2.now
        (newOffer db link url d env1.now)).last_updated = some env2.now
      rw [applyUpd_updated]
    · rw [hm2, hm1]
      show some (applyUpd (newOffer db link url d env1.now).id d env2.now
        (newOffer db link url d env1.now)).id =
        some (newOffer db link url d env1.now).id
      rw [id_applyUpd]

/-- Witness for C7: two clean runs on the mdcomputers link over the
empty store, at clock values 5 and then 9. -/
theorem C7_idempotent_upsert_witness :
    countKey (processSingleLink linkMd envAllOk dbEmpty).db
      linkMd.componentId
      (RawExtraction.mk "mdcomputers" 5300 true).vendor = 1 ∧
    countKey (processSingleLink linkMd envLater
      (processSingleLink linkMd envAllOk dbEmpty).db).db linkMd.componentId
      (RawExtraction.mk "mdcomputers" 5300 true).vendor = 1 ∧
    (findOffer (processSingleLink linkMd envAllOk dbEmpty).db
      linkMd.componentId (RawExtraction.mk "mdcomputers" 5300 true).vendor).map
      Offer.price = some (RawExtraction.mk "mdcomputers" 5300 true).price ∧
    (findOffer (processSingleLink linkMd envAllOk dbEmpty).db
      linkMd.componentId (RawExtraction.mk "mdcomputers" 5300 true).vendor).map
      Offer.last_updated = some envAllOk.now ∧
    (findOffer (processSingleLink linkMd envLater
      (processSingleLink linkMd envAllOk dbEmpty).db).db linkMd.componentId
      (RawExtraction.mk "mdcomputers" 5300 true).vendor).map
      Offer.price = some (RawExtraction.mk "mdcomputers" 5300 true).price ∧
    (findOffer (processSingleLink linkMd envLater
      (processSingleLink linkMd envAllOk dbEmpty).db).db linkMd.componentId
      (RawExtraction.mk "mdcomputers" 5300 true).vendor).map
      Offer.last_updated = some envLater.now ∧
    (findOffer (processSingleLink linkMd envLater
      (processSingleLink linkMd envAllOk dbEmpty).db).db linkMd.componentId
      (RawExtraction.mk "mdcomputers" 5300 true).vendor).map Offer.id =
      (findOffer (processSingleLink linkMd envAllOk dbEmpty).db
        linkMd.componentId
        (RawExtraction.mk "mdcomputers" 5300 true).vendor).map Offer.id ∧
    envAllOk.now < envLater.now :=
  C7_idempotent_upsert linkMd envAllOk envLater dbEmpty
    "https://mdcomputers.in/rtx-4060" ⟨"mdcomputers", 5300, true⟩ rfl
    (by decide) (by decide) (by decide) (by decide) rfl rfl (by decide)
    (by decide)

theorem psl_db_cases (link : Link) (env : LinkEnv) (db : DB) :
    (processSingleLink link env db).db = db ∨
    ∃ url d, link.externalUrl = some url ∧
      (scrapeUrl url env.scrape).ret = ScrapeOut.value (some d) ∧
      d.price ≠ 0 ∧
      processSingleLink link env db = reconcile env link url d 3 0 db 0 0 := by
  cases hu : link.externalUrl with
  | none => left; rw [psl_none link env db hu]
  | some url =>
    by_cases hb : validVendors.any (fun v => strIncl url v) = true
    · cases hr : (scrapeUrl url env.scrape).ret with
      | raised => left; rw [psl_some link env db url hu, if_pos hb, hr]
      | value v =>
        cases v with
        | none => left; rw [psl_some link env db url hu, if_pos hb, hr]
        | some d =>
          by_cases hd : d.price = 0
          · left
            rw [psl_some link env db url hu, if_pos hb, hr]
            show (if d.price = 0 then (⟨none, db, 1, 0, 0, 0⟩ : RunResult)
                  else reconcile env link url d 3 0 db 0 0).db = db
            rw [if_pos hd]
          · right
            exact ⟨url, d, rfl, hr, hd, psl_reconcile link env db url d hu hb hr hd⟩
    · left; rw [psl_some link env db url hu, if_neg hb]

/-- C10: every offer row a run adds or rewrites carries a supported
vendor tag (mdcomputers or vedant) and an effective price equal to the
raw price, and rows created by the run carry source scraper-auto and
shipping 0; and a link whose URL matches neither extraction strategy
(such as the admitted primeabgb and elitehubs URLs) yields a raised
fetch, a null extraction, or the sentinel extraction with empty vendor
and price 0, and never produces an offer write. -/
theorem C10_write_shape (link : Link) (env : LinkEnv) (db : DB)
    (link2 : Link) (env2 : LinkEnv) (db2 : DB) (u2 : String)
    (hbnd : ∀ o ∈ db.offers, o.id < db.nextOfferId)
    (hnd : (db.offers.map Offer.id).Nodup)
    (h2url : link2.externalUrl = some u2)
    (h2md : strIncl u2 "mdcomputers.in" = false)
    (h2vd : strIncl u2 "vedantcomputers.com" = false) :
    (processSingleLink link env db).db.offers.all
      (fun o => decide (o ∈ db.offers) ||
        decide (goodNewP db.nextOfferId o)) = true ∧
    (processSingleLink link2 env2 db2).db = db2 ∧
    (processSingleLink link2 env2 db2).offerWrites = 0 ∧
    ((scrapeUrl u2 env2.scrape).ret = ScrapeOut.raised ∨
     (scrapeUrl u2 env2.scrape).ret = ScrapeOut.value none ∨
     (scrapeUrl u2 env2.scrape).ret = ScrapeOut.value (some ⟨"", 0, false⟩)) := by
  have hdisj := scrape_nostrategy u2 env2.scrape h2md h2vd
  have key : ∀ o ∈ (processSingleLink link env db).db.offers,
      o ∈ db.offers ∨ goodNewP db.nextOfferId o := by
    rcases psl_db_cases link env db with heq | ⟨url, d, hu, hr, hd, heq⟩
    · rw [heq]
      intro o ho
      exact Or.inl ho
    · rw [heq]
      have hv := scrape_vendor url env.scrape d hr hd
      have hinv := reconcile_dbInv env link url d db hbnd hv 3 0 db 0 0
        ⟨Nat.le_refl _, hbnd, hnd, fun o ho => Or.inl ho⟩
      exact hinv.2.2.2
  have h23 : (processSingleLink link2 env2 db2).db = db2 ∧
      (processSingleLink link2 env2 db2).offerWrites = 0 := by
    by_cases hb2 : validVendors.any (fun v => strIncl u2 v) = true
    · rcases hdisj with hr | hr | hr <;>
        rw [psl_some link2 env2 db2 u2 h2url, if_pos hb2, hr] <;>
        exact ⟨rfl, rfl⟩
    · rw [psl_some link2 env2 db2 u2 h2url, if_neg hb2]
      exact ⟨rfl, rfl⟩
  refine ⟨?_, h23.1, h23.2, hdisj⟩
  rw [List.all_eq_true]
  intro o ho
  rcases key o ho with h | h
  · simp [h]
  · simp [h]

/-- Witness for C10: a clean run on the mdcomputers link over the empty
store, and a primeabgb link over the empty store. -/
theorem C10_write_shape_witness :
    (processSingleLink linkMd envAllOk dbEmpty).db.offers.all
      (fun o => decide (o ∈ dbEmpty.offers) ||
        decide (goodNewP dbEmpty.nextOfferId o)) = true ∧
    (processSingleLink linkPrime envAllOk dbEmpty).db = dbEmpty ∧
    (processSingleLink linkPrime envAllOk dbEmpty).offerWrites = 0 ∧
    ((scrapeUrl "https://www.primeabgb.com/rtx-4060"
        envAllOk.scrape).ret = ScrapeOut.raised ∨
     (scrapeUrl "https://www.primeabgb.com/rtx-4060"
        envAllOk.scrape).ret = ScrapeOut.value none ∨
     (scrapeUrl "https://www.primeabgb.com/rtx-4060"
        envAllOk.scrape).ret = ScrapeOut.value (some ⟨"", 0, false⟩)) :=
  C10_write_shape linkMd envAllOk dbEmpty linkPrime envAllOk dbEmpty
    "https://www.primeabgb.com/rtx-4060" (by decide) (by decide) rfl
    (by decide) (by decide)
